import Mathlib

/-!
Shallow embedding of the queue/court allocation engine of the badminton
queue web app.  The embedded functions follow the engine source
(script file of the repository; the variant with the isActive flag and
the fill-G-from-queue balancing case, which is the one the spec
describes).  Conventions of the embedding:

* A player is identified by its index in the players array, as in the
  source.  The name, id and sync timestamp fields carry no engine
  meaning and are not modeled; the modified flag is kept.
* Date.now() is passed in as an explicit parameter (now : Nat).  All
  reads of Date.now() inside one synchronous operation are modeled as
  the same value, except reorderPlayersInQueue which assigns
  baseTime + i exactly as the source does.
* The source keeps the derived arrays (advancedQueue,
  intermediateQueue, courtAssignments) in module-level variables and
  recomputes them with initializePlayerArrays.  Every state-changing
  operation of the source ends with such a recomputation, so in every
  reachable state the stored arrays equal the recomputation from the
  players array.  The embedding therefore recomputes the projection at
  the points where the source reads the (then up-to-date) globals.
  Inside autoFillEmptyCourts the source reads stale snapshots (it
  recomputes only between the balance pass and the fill pass, and only
  when the balance pass changed something); the embedding reproduces
  that staleness exactly.
* DOM rendering, local storage and Firebase calls mutate no engine
  state and are dropped.  renderCourtPlayers additionally evicts
  occupants of a court beyond the fourth; under the four-player
  invariant proved below that eviction loop never runs.
-/

inductive Qual where
  | advanced
  | intermediate
deriving DecidableEq, Repr

inductive CourtType where
  | advanced
  | intermediate
  | training
deriving DecidableEq, Repr

inductive Court where
  | G1 | G2 | G3 | G4 | W1 | W2 | W3 | W4
deriving DecidableEq, Repr, Fintype

/-- The status field of a player: one of the two queue tags or a court id. -/
inductive Status where
  | queueAdvanced
  | queueIntermediate
  | onCourt (c : Court)
deriving DecidableEq, Repr

/-- status.startsWith("queue") of the source. -/
def Status.isQueue : Status → Bool
  | .queueAdvanced => true
  | .queueIntermediate => true
  | .onCourt _ => false

/-- The queue tag matching a qualification. -/
def queueTagOf : Qual → Status
  | .advanced => .queueAdvanced
  | .intermediate => .queueIntermediate

/-- The courtPairs map of the source. -/
def courtPairs : Court → Court
  | .G1 => .W1
  | .G2 => .W2
  | .G3 => .W3
  | .G4 => .W4
  | .W1 => .G1
  | .W2 => .G2
  | .W3 => .G3
  | .W4 => .G4

/-- courtName.startsWith("G") of the source. -/
def Court.isG : Court → Bool
  | .G1 => true
  | .G2 => true
  | .G3 => true
  | .G4 => true
  | _ => false

def gCourtsList : List Court := [.G1, .G2, .G3, .G4]

def allCourtsList : List Court := [.G1, .G2, .G3, .G4, .W1, .W2, .W3, .W4]

structure Player where
  qualification : Qual
  status : Status
  order : Nat
  isActive : Bool := true
  modified : Bool := false
deriving DecidableEq, Repr

/-- The courtTypes dictionary: a court may be absent from the map. -/
def CourtTypes := Court → Option CourtType

/-- courtTypes[c] followed by the source idiom (courtTypes[c] || "intermediate"). -/
def getCourtType (types : CourtTypes) (c : Court) : CourtType :=
  (types c).getD .intermediate

/-- Writing one entry of the courtTypes dictionary. -/
def setCourtTypeEntry (types : CourtTypes) (c : Court) (t : CourtType) : CourtTypes :=
  fun c0 => if c0 = c then some t else types c0

/-- The engine state: the players array and the courtTypes dictionary. -/
structure EngineState where
  players : List Player
  courtTypes : CourtTypes

def statusAt (ps : List Player) (i : Nat) : Option Status :=
  (ps.get? i).map (·.status)

/-- The indices of the players whose status is st, in array order. -/
def members (ps : List Player) (st : Status) : List Nat :=
  (List.range ps.length).filter (fun i => statusAt ps i = some st)

/-- The number of players whose status is st. -/
def countSt (ps : List Player) (st : Status) : Nat :=
  (members ps st).length

/-- The active-player filter of initializePlayerArrays
(item.player.isActive !== false) applied to the indices holding a queue
status, in array order. -/
def queueCandidates (ps : List Player) (st : Status) : List Nat :=
  (List.range ps.length).filter
    (fun i => (ps.get? i).any (fun p => p.isActive && p.status = st))

def orderKey (ps : List Player) (i : Nat) : Nat :=
  ((ps.get? i).map (·.order)).getD 0

/-- One step of a stable insertion sort: x is placed after every element
whose key is at most the key of x.  This reproduces the ascending stable
sort of the source (sort((a, b) => order a - order b)). -/
def insertByKey (key : Nat → Nat) (x : Nat) : List Nat → List Nat
  | [] => [x]
  | y :: ys => if key y ≤ key x then y :: insertByKey key x ys else x :: y :: ys

/-- Stable sort of a list of player indices, ascending by key. -/
def sortByKey (key : Nat → Nat) (l : List Nat) : List Nat :=
  l.foldl (fun acc x => insertByKey key x acc) []

/-- The derived view rebuilt by initializePlayerArrays. -/
structure Projection where
  advancedQueue : List Nat
  intermediateQueue : List Nat
  courtAssignments : Court → List Nat

/-- initializePlayerArrays of the source: the two queues hold the active
players with the matching queue status sorted ascending by order, while
courtAssignments collects every player with a court status (no isActive
filter in the source), in array order. -/
def initializePlayerArrays (ps : List Player) : Projection where
  advancedQueue := sortByKey (orderKey ps) (queueCandidates ps .queueAdvanced)
  intermediateQueue := sortByKey (orderKey ps) (queueCandidates ps .queueIntermediate)
  courtAssignments := fun c => members ps (.onCourt c)

/-- The tier queue of a projection selected by qualification. -/
def tierQueue (pr : Projection) : Qual → List Nat
  | .advanced => pr.advancedQueue
  | .intermediate => pr.intermediateQueue

/-- Apply an index-aware function to every element of a list, the index
starting at n. -/
def applyIdx (f : Nat → Player → Player) : Nat → List Player → List Player
  | _, [] => []
  | n, p :: ps => f n p :: applyIdx f (n + 1) ps

/-- The loop bodies of the balance and fill passes and of the rotation:
set the status of every listed (existing) player to the given court and
mark it modified. -/
def setCourtAll (idxs : List Nat) (c : Court) (ps : List Player) : List Player :=
  applyIdx
    (fun i p => if i ∈ idxs then { p with status := .onCourt c, modified := true } else p)
    0 ps

/-- The loop body sending every listed (existing) player back to the
queue matching its own qualification with order reset to now, as in
rotateCourtPlayers and in the training branch of handleCourtTypeChange. -/
def sendBackToQueueAll (idxs : List Nat) (now : Nat) (ps : List Player) : List Player :=
  applyIdx
    (fun i p =>
      if i ∈ idxs then
        { p with status := queueTagOf p.qualification, order := now, modified := true }
      else p)
    0 ps

/-- anyChanges is set per existing player touched by a loop; a list of
indices changes something exactly when it holds a valid index. -/
def anyValid (idxs : List Nat) (ps : List Player) : Bool :=
  idxs.any (· < ps.length)

/-- updatePlayerStatus of the source: writes status and qualification of
one player; when the destination is a queue the order is refreshed to
now (the source computes orderToAssign as player.order || Date.now()
and overwrites it with Date.now() for queue destinations, writing it
back only for queue destinations when it differs).  The trailing
Firebase sync is external I/O and mutates no engine state. -/
def updatePlayerStatus (s : EngineState) (playerIndex : Nat) (newStatus : Status)
    (newQualification : Qual) (now : Nat) : EngineState :=
  match s.players.get? playerIndex with
  | none => s
  | some p =>
    let orderToAssign := if newStatus.isQueue then now else if p.order = 0 then now else p.order
    let p1 : Player :=
      { p with status := newStatus, qualification := newQualification, modified := true }
    let p2 : Player :=
      if newStatus.isQueue ∧ orderToAssign ≠ p.order then { p1 with order := orderToAssign }
      else p1
    { s with players := s.players.set playerIndex p2 }

/-- The loop of reorderPlayersInQueue: the player at position i of the
array receives order baseTime + i (missing players are skipped; writing
at an out-of-range index leaves the array unchanged, as List.set does). -/
def writeOrders (ps : List Player) (arr : List Nat) (baseTime : Nat) (k : Nat) : List Player :=
  match arr with
  | [] => ps
  | i :: rest =>
    let ps1 :=
      match ps.get? i with
      | none => ps
      | some p => ps.set i { p with order := baseTime + k, modified := true }
    writeOrders ps1 rest baseTime (k + 1)

/-- reorderPlayersInQueue of the source.  The queueType argument is only
logged by the source; the new order values are baseTime + position. -/
def reorderPlayersInQueue (s : EngineState) (queueType : Qual) (newOrderArray : List Nat)
    (now : Nat) : EngineState :=
  let _ := queueType
  { s with players := writeOrders s.players newOrderArray now 0 }

/-- moveToCourt of the source: rejects a qualification mismatch against
an advanced or intermediate court and a full court, then moves the
player.  The source has no check for training courts here: a training
court passes both qualification guards for every player.  The occupancy
is read from courtAssignments, up to date in every reachable state. -/
def moveToCourt (s : EngineState) (playerIndex : Nat) (court : Court) (now : Nat) :
    EngineState :=
  match s.players.get? playerIndex with
  | none => s
  | some p =>
    let courtType := getCourtType s.courtTypes court
    if courtType = .advanced ∧ p.qualification ≠ .advanced then s
    else if courtType = .intermediate ∧ p.qualification ≠ .intermediate then s
    else if 4 ≤ ((initializePlayerArrays s.players).courtAssignments court).length then s
    else updatePlayerStatus s playerIndex (.onCourt court) p.qualification now

/-- moveToSpecificQueue of the source: unconditionally sends the player
to the chosen queue and overwrites its qualification to the tier.  The
debounced auto-fill it schedules is a later, separate invocation of
autoFillEmptyCourts. -/
def moveToSpecificQueue (s : EngineState) (playerIndex : Nat) (queueType : Qual) (now : Nat) :
    EngineState :=
  updatePlayerStatus s playerIndex (queueTagOf queueType) queueType now

/-- The candidate loop of autoAdvanceFromQueue: the first queued player
matching the court type (training courts exclude nobody here). -/
def findCandidate (ps : List Player) (courtType : CourtType) : List Nat → Option Nat
  | [] => none
  | i :: rest =>
    match ps.get? i with
    | none => findCandidate ps courtType rest
    | some p =>
      if courtType = .advanced ∧ p.qualification ≠ .advanced then
        findCandidate ps courtType rest
      else if courtType = .intermediate ∧ p.qualification ≠ .intermediate then
        findCandidate ps courtType rest
      else some i

inductive JsError where
  | referenceError
deriving DecidableEq, Repr

/-- In the source, the update call of autoAdvanceFromQueue evaluates
player.qualification as its third argument, but player is the
block-scoped const of the candidate loop and is no longer in scope at
the call site; evaluating the argument raises a ReferenceError before
updatePlayerStatus is entered. -/
def loopScopedPlayerQualification : Except JsError Qual :=
  Except.error JsError.referenceError

/-- autoAdvanceFromQueue of the source: after the early returns (empty
queue, training court, full court, no suitable candidate) the update is
attempted inside try/catch; the ReferenceError raised while evaluating
the arguments is caught and the state is left untouched. -/
def autoAdvanceFromQueue (s : EngineState) (courtName : Court) (queueType : Qual) (now : Nat) :
    EngineState :=
  let proj := initializePlayerArrays s.players
  let queue := tierQueue proj queueType
  if queue.length = 0 then s
  else
    let courtType := getCourtType s.courtTypes courtName
    if courtType = .training then s
    else if 4 ≤ (proj.courtAssignments courtName).length then s
    else
      match findCandidate s.players courtType queue with
      | none => s
      | some nextPlayerIndex =>
        match loopScopedPlayerQualification with
        | Except.error _ => s
        | Except.ok q => updatePlayerStatus s nextPlayerIndex (.onCourt courtName) q now

/-- handleCourtTypeChange of the source.  Switching to training collects
the occupants of the court and (for a G court) of its pair from
courtAssignments and sends each back to the queue matching its own
qualification with order reset to now.  Switching away from training
only schedules an auto-fill pass (a later, separate invocation). -/
def handleCourtTypeChange (s : EngineState) (courtName : Court)
    (oldCourtType newCourtType : CourtType) (now : Nat) : EngineState :=
  let _ := oldCourtType
  if newCourtType = .training then
    let courts := if courtName.isG then [courtName, courtPairs courtName] else [courtName]
    let proj := initializePlayerArrays s.players
    let playersToMove := courts.foldl (fun acc c => acc ++ proj.courtAssignments c) []
    { s with players := sendBackToQueueAll playersToMove now s.players }
  else s

/-- syncWCourtTypes of the source: every W court receives the type of
its paired G court (default intermediate), in G1..G4 order. -/
def syncWCourtTypes (types : CourtTypes) : CourtTypes :=
  gCourtsList.foldl
    (fun acc g => setCourtTypeEntry acc (courtPairs g) (getCourtType acc g)) types

/-- changeCourtType of the source.  The null and invalid-type guards are
subsumed by the Court and CourtType types; a W court argument is
rejected (change the paired court instead) with no state change.  On a
G court both entries of the pair are written, handleCourtTypeChange
runs, and syncWCourtTypes re-propagates every pair. -/
def changeCourtType (s : EngineState) (courtName : Court) (courtType : CourtType) (now : Nat) :
    EngineState :=
  if ¬ courtName.isG then s
  else
    let oldCourtType := getCourtType s.courtTypes courtName
    let types1 := setCourtTypeEntry s.courtTypes courtName courtType
    let types2 :=
      if courtName.isG then setCourtTypeEntry types1 (courtPairs courtName) courtType
      else types1
    let s1 := handleCourtTypeChange { s with courtTypes := types2 } courtName oldCourtType
      courtType now
    { s1 with courtTypes := syncWCourtTypes s1.courtTypes }

/-- rotateCourtPlayers of the source: only G courts rotate; the G
occupants go back to the queue of their own qualification with order
reset to now, then the W occupants move onto the G court with order
untouched.  The auto-fill it schedules is a separate invocation. -/
def rotateCourtPlayers (s : EngineState) (gCourtName : Court) (now : Nat) : EngineState :=
  if ¬ gCourtName.isG then s
  else
    let wCourtName := courtPairs gCourtName
    let proj := initializePlayerArrays s.players
    let gCourtPlayers := proj.courtAssignments gCourtName
    let wCourtPlayers := proj.courtAssignments wCourtName
    let ps1 := sendBackToQueueAll gCourtPlayers now s.players
    let ps2 := setCourtAll wCourtPlayers gCourtName ps1
    { s with players := ps2 }

/-- The queue filtered to a qualification, as the balance and fill
passes do (player && player.qualification === tier), reading the
current players array. -/
def filterQual (ps : List Player) (q : Qual) (l : List Nat) : List Nat :=
  l.filter (fun i => (ps.get? i).any (fun p => p.qualification = q))

/-- One iteration of the balance loop of autoFillEmptyCourts for a G
court, reading the stale snapshot S0 taken at the start of the call and
writing the current players array.  Cases, as in the source: a training
pair is skipped; if both courts are empty the G court is filled straight
from the matching queue (up to 4) and the loop continues; if G is empty
and W has at least 2 players all W occupants move to G; if G is
non-empty, non-full and W is non-empty, min(4 - |G|, |W|) W occupants
(front first) move to G. -/
def balanceStep (types : CourtTypes) (S0 : Projection) (acc : List Player × Bool)
    (gCourtName : Court) : List Player × Bool :=
  let ps := acc.1
  let changed := acc.2
  let courtType := getCourtType types gCourtName
  if courtType = .training then acc
  else
    let gCourtPlayers := S0.courtAssignments gCourtName
    let wCourtName := courtPairs gCourtName
    let wCourtPlayers := S0.courtAssignments wCourtName
    if gCourtPlayers.length = 0 ∧ wCourtPlayers.length = 0 then
      let queueToUse :=
        match courtType with
        | .advanced => filterQual ps .advanced S0.advancedQueue
        | .intermediate => filterQual ps .intermediate S0.intermediateQueue
        | .training => []
      if 0 < queueToUse.length then
        let playersToMove := queueToUse.take 4
        (setCourtAll playersToMove gCourtName ps, changed || anyValid playersToMove ps)
      else acc
    else if gCourtPlayers.length = 0 ∧ 2 ≤ wCourtPlayers.length then
      (setCourtAll wCourtPlayers gCourtName ps, changed || anyValid wCourtPlayers ps)
    else if 0 < gCourtPlayers.length ∧ gCourtPlayers.length < 4 ∧ 0 < wCourtPlayers.length then
      let playersToMove := wCourtPlayers.take (4 - gCourtPlayers.length)
      (setCourtAll playersToMove gCourtName ps, changed || anyValid playersToMove ps)
    else acc

def balancePass (types : CourtTypes) (S0 : Projection) (ps : List Player) :
    List Player × Bool :=
  gCourtsList.foldl (balanceStep types S0) (ps, false)

/-- One iteration of the fill loop of autoFillEmptyCourts, reading the
snapshot S1 taken after the balance pass (the source recomputes the
arrays only once, before this loop, and only when the balance pass
changed something) and writing the current players array. -/
def fillStep (types : CourtTypes) (S1 : Projection) (acc : List Player × Bool)
    (courtName : Court) : List Player × Bool :=
  let ps := acc.1
  let changed := acc.2
  let courtType := getCourtType types courtName
  if courtType = .training then acc
  else
    let availableSpots := 4 - (S1.courtAssignments courtName).length
    if availableSpots = 0 then acc
    else
      let playersToAdd :=
        match courtType with
        | .advanced => (filterQual ps .advanced S1.advancedQueue).take availableSpots
        | .intermediate => (filterQual ps .intermediate S1.intermediateQueue).take availableSpots
        | .training => []
      if 0 < playersToAdd.length then
        (setCourtAll playersToAdd courtName ps, changed || anyValid playersToAdd ps)
      else acc

def fillPass (types : CourtTypes) (S1 : Projection) (ps : List Player) (changed : Bool) :
    List Player × Bool :=
  allCourtsList.foldl (fillStep types S1) (ps, changed)

/-- autoFillEmptyCourts of the source: W types are re-synced, the
projection is rebuilt, the balance pass runs over G1..G4 on that
snapshot, the projection is rebuilt again only if the balance pass
changed something, and the fill pass runs over all 8 courts (G courts
first) on that second snapshot.  The final rebuild of the source only
refreshes the derived arrays. -/
def autoFillEmptyCourts (s : EngineState) : EngineState :=
  let types := syncWCourtTypes s.courtTypes
  let S0 := initializePlayerArrays s.players
  let b := balancePass types S0 s.players
  let S1 := if b.2 then initializePlayerArrays b.1 else S0
  let f := fillPass types S1 b.1 b.2
  { players := f.1, courtTypes := types }

theorem applyIdx_length (f : Nat → Player → Player) :
    ∀ (n : Nat) (ps : List Player), (applyIdx f n ps).length = ps.length
  | _, [] => rfl
  | n, _ :: ps => by simp [applyIdx, applyIdx_length f (n + 1) ps]

theorem applyIdx_get? (f : Nat → Player → Player) :
    ∀ (n : Nat) (ps : List Player) (i : Nat),
      (applyIdx f n ps).get? i = (ps.get? i).map (f (n + i))
  | _, [], i => by simp [applyIdx]
  | n, p :: ps, 0 => by simp [applyIdx]
  | n, p :: ps, i + 1 => by
    have h := applyIdx_get? f (n + 1) ps i
    simp only [applyIdx, List.get?_cons_succ, h]
    have : n + 1 + i = n + (i + 1) := by omega
    rw [this]

theorem setCourtAll_length (idxs : List Nat) (c : Court) (ps : List Player) :
    (setCourtAll idxs c ps).length = ps.length :=
  applyIdx_length _ 0 ps

theorem sendBackToQueueAll_length (idxs : List Nat) (now : Nat) (ps : List Player) :
    (sendBackToQueueAll idxs now ps).length = ps.length :=
  applyIdx_length _ 0 ps

theorem statusAt_setCourtAll (idxs : List Nat) (c : Court) (ps : List Player) (i : Nat) :
    statusAt (setCourtAll idxs c ps) i =
      if i ∈ idxs then (ps.get? i).map (fun _ => Status.onCourt c) else statusAt ps i := by
  unfold statusAt setCourtAll
  rw [applyIdx_get?]
  simp only [Nat.zero_add]
  cases ps.get? i <;> by_cases hm : i ∈ idxs <;> simp [hm]

theorem statusAt_sendBackToQueueAll (idxs : List Nat) (now : Nat) (ps : List Player)
    (i : Nat) :
    statusAt (sendBackToQueueAll idxs now ps) i =
      if i ∈ idxs then (ps.get? i).map (fun p => queueTagOf p.qualification)
      else statusAt ps i := by
  unfold statusAt sendBackToQueueAll
  rw [applyIdx_get?]
  simp only [Nat.zero_add]
  cases ps.get? i <;> by_cases hm : i ∈ idxs <;> simp [hm]

theorem statusAt_some_lt {ps : List Player} {i : Nat} {st : Status}
    (h : statusAt ps i = some st) : i < ps.length := by
  unfold statusAt at h
  cases hg : ps.get? i with
  | none => rw [hg] at h; simp at h
  | some p => exact (List.get?_eq_some.mp hg).1

theorem mem_members {ps : List Player} {i : Nat} {st : Status} :
    i ∈ members ps st ↔ statusAt ps i = some st := by
  unfold members
  simp only [List.mem_filter, List.mem_range, decide_eq_true_eq]
  exact ⟨fun h => h.2, fun h => ⟨statusAt_some_lt h, h⟩⟩

theorem members_nodup (ps : List Player) (st : Status) : (members ps st).Nodup :=
  (List.nodup_range _).filter _

theorem nodup_subset_length_le {l₁ l₂ : List Nat} (h : l₁.Nodup) (hs : l₁ ⊆ l₂) :
    l₁.length ≤ l₂.length :=
  (h.subperm hs).length_le

theorem queueTagOf_ne_onCourt (q : Qual) (c : Court) : queueTagOf q ≠ .onCourt c := by
  cases q <;> simp [queueTagOf]

theorem countSt_setCourtAll_target (idxs : List Nat) (c : Court) (ps : List Player) :
    countSt (setCourtAll idxs c ps) (.onCourt c) ≤ countSt ps (.onCourt c) + idxs.length := by
  unfold countSt
  have hsub : members (setCourtAll idxs c ps) (.onCourt c) ⊆
      members ps (.onCourt c) ++ idxs := by
    intro i hi
    rw [mem_members, statusAt_setCourtAll] at hi
    by_cases hm : i ∈ idxs
    · exact List.mem_append_right _ hm
    · rw [if_neg hm] at hi
      exact List.mem_append_left _ (mem_members.mpr hi)
  have := nodup_subset_length_le (members_nodup _ _) hsub
  simpa using this

theorem countSt_setCourtAll_other (idxs : List Nat) (c : Court) (ps : List Player)
    (st : Status) (hst : st ≠ .onCourt c) :
    countSt (setCourtAll idxs c ps) st ≤ countSt ps st := by
  unfold countSt
  apply nodup_subset_length_le (members_nodup _ _)
  intro i hi
  rw [mem_members, statusAt_setCourtAll] at hi
  by_cases hm : i ∈ idxs
  · rw [if_pos hm] at hi
    cases hg : ps.get? i <;> rw [hg] at hi <;> simp at hi
    exact absurd hi.symm hst
  · rw [if_neg hm] at hi
    exact mem_members.mpr hi

theorem countSt_sendBackToQueueAll_court (idxs : List Nat) (now : Nat) (ps : List Player)
    (c : Court) :
    countSt (sendBackToQueueAll idxs now ps) (.onCourt c) ≤ countSt ps (.onCourt c) := by
  unfold countSt
  apply nodup_subset_length_le (members_nodup _ _)
  intro i hi
  rw [mem_members, statusAt_sendBackToQueueAll] at hi
  by_cases hm : i ∈ idxs
  · rw [if_pos hm] at hi
    cases hg : ps.get? i <;> rw [hg] at hi <;> simp at hi
    exact absurd hi (queueTagOf_ne_onCourt _ _)
  · rw [if_neg hm] at hi
    exact mem_members.mpr hi

theorem members_eq_of_statusAt_iff {ps1 ps2 : List Player} {st : Status}
    (hl : ps1.length = ps2.length)
    (h : ∀ i, statusAt ps1 i = some st ↔ statusAt ps2 i = some st) :
    members ps1 st = members ps2 st := by
  unfold members
  rw [hl]
  exact List.filter_congr (fun a _ => decide_eq_decide.mpr (h a))

/-- The four-player capacity invariant: at most 4 players on every court. -/
def CapacityInv (ps : List Player) : Prop :=
  ∀ c : Court, countSt ps (.onCourt c) ≤ 4

instance (ps : List Player) : Decidable (CapacityInv ps) := by
  unfold CapacityInv; infer_instance

theorem statusAt_set (ps : List Player) (i : Nat) (p : Player) (j : Nat) :
    statusAt (ps.set i p) j =
      if i = j then (ps.get? j).map (fun _ => p.status) else statusAt ps j := by
  unfold statusAt
  rw [List.get?_set]
  by_cases h : i = j
  · rw [if_pos h, if_pos h]
    cases ps.get? j <;> rfl
  · rw [if_neg h, if_neg h]

theorem countSt_set_le_succ (ps : List Player) (i : Nat) (p : Player) (st : Status) :
    countSt (ps.set i p) st ≤ countSt ps st + 1 := by
  unfold countSt
  have hsub : members (ps.set i p) st ⊆ members ps st ++ [i] := by
    intro j hj
    rw [mem_members, statusAt_set] at hj
    by_cases h : i = j
    · simp [h]
    · rw [if_neg h] at hj
      exact List.mem_append_left _ (mem_members.mpr hj)
  have := nodup_subset_length_le (members_nodup _ _) hsub
  simpa using this

theorem countSt_set_le (ps : List Player) (i : Nat) (p : Player) (st : Status)
    (hp : p.status ≠ st) : countSt (ps.set i p) st ≤ countSt ps st := by
  unfold countSt
  apply nodup_subset_length_le (members_nodup _ _)
  intro j hj
  rw [mem_members, statusAt_set] at hj
  by_cases h : i = j
  · rw [if_pos h] at hj
    cases hg : ps.get? j <;> rw [hg] at hj <;> simp at hj
    exact absurd hj.symm (fun he => hp he.symm)
  · rw [if_neg h] at hj
    exact mem_members.mpr hj

theorem courtAssignments_eq (ps : List Player) (c : Court) :
    (initializePlayerArrays ps).courtAssignments c = members ps (.onCourt c) := rfl

theorem mem_queueCandidates {ps : List Player} {st : Status} {i : Nat}
    (h : i ∈ queueCandidates ps st) : statusAt ps i = some st := by
  unfold queueCandidates at h
  rw [List.mem_filter] at h
  obtain ⟨-, h⟩ := h
  unfold statusAt
  cases hg : ps.get? i with
  | none => rw [hg] at h; simp [Option.any] at h
  | some p =>
    rw [hg] at h
    simp only [Option.any, Bool.and_eq_true, decide_eq_true_eq] at h
    simp [h.2]

theorem mem_insertByKey {key : Nat → Nat} {x y : Nat} :
    ∀ {l : List Nat}, y ∈ insertByKey key x l ↔ y = x ∨ y ∈ l
  | [] => by simp [insertByKey]
  | z :: zs => by
    unfold insertByKey
    by_cases h : key z ≤ key x
    · rw [if_pos h]
      simp only [List.mem_cons, mem_insertByKey (l := zs)]
      tauto
    · rw [if_neg h]
      simp [List.mem_cons]

theorem mem_sortByKey_aux {key : Nat → Nat} {y : Nat} :
    ∀ (l acc : List Nat),
      y ∈ l.foldl (fun a x => insertByKey key x a) acc ↔ y ∈ acc ∨ y ∈ l
  | [], acc => by simp
  | z :: zs, acc => by
    simp only [List.foldl_cons, mem_sortByKey_aux zs, mem_insertByKey, List.mem_cons]
    tauto

theorem mem_sortByKey {key : Nat → Nat} {l : List Nat} {y : Nat} :
    y ∈ sortByKey key l ↔ y ∈ l := by
  unfold sortByKey
  rw [mem_sortByKey_aux]
  simp

theorem mem_advancedQueue {ps : List Player} {i : Nat}
    (h : i ∈ (initializePlayerArrays ps).advancedQueue) :
    statusAt ps i = some .queueAdvanced := by
  unfold initializePlayerArrays at h
  exact mem_queueCandidates (mem_sortByKey.mp h)

theorem mem_intermediateQueue {ps : List Player} {i : Nat}
    (h : i ∈ (initializePlayerArrays ps).intermediateQueue) :
    statusAt ps i = some .queueIntermediate := by
  unfold initializePlayerArrays at h
  exact mem_queueCandidates (mem_sortByKey.mp h)

theorem updatePlayerStatus_players_cases (s : EngineState) (i : Nat) (st : Status) (q : Qual)
    (now : Nat) :
    (updatePlayerStatus s i st q now).players = s.players ∨
      ∃ p2 : Player, p2.status = st ∧
        (updatePlayerStatus s i st q now).players = s.players.set i p2 := by
  unfold updatePlayerStatus
  cases s.players.get? i with
  | none => exact Or.inl rfl
  | some p =>
    right
    refine ⟨_, ?_, rfl⟩
    repeat' split
    all_goals rfl

/-- moveToSpecificQueue preserves the capacity invariant: the player
leaves for a queue tag, so no court gains a player. -/
theorem capacityInv_moveToSpecificQueue {s : EngineState} (h : CapacityInv s.players)
    (i : Nat) (qt : Qual) (now : Nat) :
    CapacityInv (moveToSpecificQueue s i qt now).players := by
  unfold moveToSpecificQueue
  rcases updatePlayerStatus_players_cases s i (queueTagOf qt) qt now with he | ⟨p2, hst, he⟩
  · rw [he]; exact h
  · rw [he]
    intro c
    refine le_trans (countSt_set_le _ _ _ _ ?_) (h c)
    rw [hst]
    exact queueTagOf_ne_onCourt qt c

/-- moveToCourt preserves the capacity invariant: the court-full guard
admits the player only below four occupants. -/
theorem capacityInv_moveToCourt {s : EngineState} (h : CapacityInv s.players)
    (i : Nat) (court : Court) (now : Nat) :
    CapacityInv (moveToCourt s i court now).players := by
  unfold moveToCourt
  split
  · exact h
  · rename_i p hget
    dsimp only
    split
    · exact h
    · split
      · exact h
      · split
        · exact h
        · rename_i hfull
          rw [courtAssignments_eq] at hfull
          have hcnt : countSt s.players (.onCourt court) ≤ 3 := by
            unfold countSt; omega
          rcases updatePlayerStatus_players_cases s i (.onCourt court) p.qualification now
            with he | ⟨p2, hst, he⟩
          · rw [he]; exact h
          · rw [he]
            intro c
            by_cases hc : c = court
            · subst hc
              calc countSt (s.players.set i p2) (.onCourt c)
                  ≤ countSt s.players (.onCourt c) + 1 := countSt_set_le_succ _ _ _ _
                _ ≤ 4 := by omega
            · refine le_trans (countSt_set_le _ _ _ _ ?_) (h c)
              rw [hst]
              intro h2
              exact hc (Status.onCourt.inj h2).symm

theorem writeOrders_length :
    ∀ (arr : List Nat) (ps : List Player) (base k : Nat),
      (writeOrders ps arr base k).length = ps.length
  | [], _, _, _ => rfl
  | a :: rest, ps, base, k => by
    unfold writeOrders
    rw [writeOrders_length rest]
    cases ps.get? a <;> simp

theorem statusAt_writeOrders :
    ∀ (arr : List Nat) (ps : List Player) (base k i : Nat),
      statusAt (writeOrders ps arr base k) i = statusAt ps i
  | [], _, _, _, _ => rfl
  | a :: rest, ps, base, k, i => by
    unfold writeOrders
    rw [statusAt_writeOrders rest]
    cases hg : ps.get? a with
    | none => rfl
    | some p =>
      rw [statusAt_set]
      by_cases hai : a = i
      · subst hai
        rw [if_pos rfl, hg]
        unfold statusAt
        rw [hg]
        rfl
      · rw [if_neg hai]

/-- reorderPlayersInQueue preserves the capacity invariant: it only
rewrites order timestamps, never a status. -/
theorem capacityInv_reorderPlayersInQueue {s : EngineState} (h : CapacityInv s.players)
    (qt : Qual) (arr : List Nat) (now : Nat) :
    CapacityInv (reorderPlayersInQueue s qt arr now).players := by
  intro c
  unfold reorderPlayersInQueue
  have hmem : members (writeOrders s.players arr now 0) (.onCourt c) =
      members s.players (.onCourt c) :=
    members_eq_of_statusAt_iff (writeOrders_length arr s.players now 0)
      (fun i => by rw [statusAt_writeOrders])
  unfold countSt
  rw [hmem]
  exact h c

/-- rotateCourtPlayers preserves the capacity invariant: the G court
ends up with exactly the former W occupants (at most four), the W court
empties, and no other court is touched. -/
theorem capacityInv_rotateCourtPlayers {s : EngineState} (h : CapacityInv s.players)
    (g : Court) (now : Nat) :
    CapacityInv (rotateCourtPlayers s g now).players := by
  unfold rotateCourtPlayers
  split
  · exact h
  · dsimp only
    intro c
    rw [courtAssignments_eq, courtAssignments_eq]
    by_cases hc : c = g
    · subst hc
      have h1 : countSt (sendBackToQueueAll (members s.players (.onCourt c)) now s.players)
          (.onCourt c) = 0 := by
        unfold countSt
        rw [List.length_eq_zero, List.eq_nil_iff_forall_not_mem]
        intro i hi
        rw [mem_members, statusAt_sendBackToQueueAll] at hi
        by_cases hm : i ∈ members s.players (.onCourt c)
        · rw [if_pos hm] at hi
          cases hg2 : s.players.get? i <;> rw [hg2] at hi <;> simp at hi
          exact absurd hi (queueTagOf_ne_onCourt _ _)
        · rw [if_neg hm] at hi
          exact hm (mem_members.mpr hi)
      calc countSt _ (.onCourt c)
          ≤ countSt (sendBackToQueueAll (members s.players (.onCourt c)) now s.players)
              (.onCourt c) + (members s.players (.onCourt (courtPairs c))).length :=
            countSt_setCourtAll_target _ _ _
        _ ≤ 0 + countSt s.players (.onCourt (courtPairs c)) := by
            rw [h1]; exact Nat.le_refl _
        _ ≤ 4 := by simpa using h (courtPairs c)
    · calc countSt _ (.onCourt c)
          ≤ countSt (sendBackToQueueAll (members s.players (.onCourt g)) now s.players)
              (.onCourt c) := countSt_setCourtAll_other _ _ _ _ (by simp [hc])
        _ ≤ countSt s.players (.onCourt c) := countSt_sendBackToQueueAll_court _ _ _ _
        _ ≤ 4 := h c

/-- changeCourtType preserves the capacity invariant: switching to
training only sends players to queues; any other switch moves nobody. -/
theorem capacityInv_changeCourtType {s : EngineState} (h : CapacityInv s.players)
    (court : Court) (t : CourtType) (now : Nat) :
    CapacityInv (changeCourtType s court t now).players := by
  unfold changeCourtType
  split
  · exact h
  · dsimp only
    unfold handleCourtTypeChange
    dsimp only
    split
    · intro c
      exact le_trans (countSt_sendBackToQueueAll_court _ _ _ _) (h c)
    · exact h

/-- Agreement of two player arrays on which indices carry a given status. -/
def StatusIff (ps P0 : List Player) (st : Status) : Prop :=
  ∀ i, statusAt ps i = some st ↔ statusAt P0 i = some st

theorem countSt_eq_of_statusIff {ps P0 : List Player} {st : Status}
    (hl : ps.length = P0.length) (hiff : StatusIff ps P0 st) :
    countSt ps st = countSt P0 st := by
  unfold countSt
  rw [members_eq_of_statusAt_iff hl hiff]

theorem statusIff_setCourtAll {ps P0 : List Player} {idxs : List Nat} {c : Court}
    {st : Status} (hst : st ≠ .onCourt c)
    (hidxs : ∀ i ∈ idxs, statusAt P0 i ≠ some st)
    (hiff : StatusIff ps P0 st) :
    StatusIff (setCourtAll idxs c ps) P0 st := by
  intro i
  rw [statusAt_setCourtAll]
  by_cases hm : i ∈ idxs
  · rw [if_pos hm]
    constructor
    · intro hx
      cases hg : ps.get? i <;> rw [hg] at hx <;> simp at hx
      exact absurd hx.symm hst
    · intro hx
      exact absurd hx (hidxs i hm)
  · rw [if_neg hm]
    exact hiff i

theorem setCourtAll_of_not_anyValid {idxs : List Nat} {c : Court} {ps : List Player}
    (h : anyValid idxs ps = false) : setCourtAll idxs c ps = ps := by
  unfold anyValid at h
  rw [List.any_eq_false] at h
  apply List.ext_get?_iff.mpr
  intro n
  unfold setCourtAll
  rw [applyIdx_get?]
  simp only [Nat.zero_add]
  by_cases hm : n ∈ idxs
  · have hn : ¬ n < ps.length := by simpa using h n hm
    have hnone : ps.get? n = none := List.get?_eq_none.mpr (by omega)
    rw [hnone]
    rfl
  · cases ps.get? n <;> simp [hm]

theorem courtPairs_not_G : ∀ g : Court, g.isG = true → (courtPairs g).isG = false := by
  decide

/-- One balance iteration either leaves the accumulator alone or
assigns a list of indices drawn from the snapshot queues or from the
paired W list to the G court, with the length accounting used by the
capacity proof. -/
theorem balanceStep_cases (types : CourtTypes) (S0 : Projection)
    (acc : List Player × Bool) (g : Court) :
    balanceStep types S0 acc g = acc ∨
      ∃ idxs : List Nat,
        (balanceStep types S0 acc g).1 = setCourtAll idxs g acc.1 ∧
        (balanceStep types S0 acc g).2 = (acc.2 || anyValid idxs acc.1) ∧
        (∀ i ∈ idxs, i ∈ S0.advancedQueue ∨ i ∈ S0.intermediateQueue ∨
          i ∈ S0.courtAssignments (courtPairs g)) ∧
        ((idxs.length ≤ (S0.courtAssignments (courtPairs g)).length ∧
            (S0.courtAssignments g).length = 0) ∨
          idxs.length + (S0.courtAssignments g).length ≤ 4) := by
  unfold balanceStep
  dsimp only
  split
  · exact Or.inl rfl
  · rename_i hnt
    split
    · rename_i hempty
      split
      · rename_i hpos
        refine Or.inr ⟨_, rfl, rfl, ?_, ?_⟩
        · intro i hi
          have hi2 := List.mem_of_mem_take hi
          rcases ht : getCourtType types g with h1 | h1 | h1 <;> rw [ht] at hi2
          · exact Or.inl (List.mem_filter.mp hi2).1
          · exact Or.inr (Or.inl (List.mem_filter.mp hi2).1)
          · simp at hi2
        · refine Or.inr ?_
          rw [hempty.1]
          have := List.length_take_le 4
            (match getCourtType types g with
              | .advanced => filterQual acc.1 .advanced S0.advancedQueue
              | .intermediate => filterQual acc.1 .intermediate S0.intermediateQueue
              | .training => [])
          omega
      · exact Or.inl rfl
    · split
      · rename_i hcase1
        refine Or.inr ⟨_, rfl, rfl, fun i hi => Or.inr (Or.inr hi),
          Or.inl ⟨Nat.le_refl _, hcase1.1⟩⟩
      · split
        · rename_i hcase2
          refine Or.inr ⟨_, rfl, rfl, ?_, ?_⟩
          · intro i hi
            exact Or.inr (Or.inr (List.mem_of_mem_take hi))
          · refine Or.inr ?_
            have h1 := List.length_take_le (4 - (S0.courtAssignments g).length)
              (S0.courtAssignments (courtPairs g))
            omega
        · exact Or.inl rfl

/-- One fill iteration either leaves the accumulator alone or assigns a
list of snapshot-queue indices to the court, never exceeding the free
capacity recorded in the snapshot. -/
theorem fillStep_cases (types : CourtTypes) (S1 : Projection)
    (acc : List Player × Bool) (c : Court) :
    fillStep types S1 acc c = acc ∨
      ∃ idxs : List Nat,
        (fillStep types S1 acc c).1 = setCourtAll idxs c acc.1 ∧
        (fillStep types S1 acc c).2 = (acc.2 || anyValid idxs acc.1) ∧
        (∀ i ∈ idxs, i ∈ S1.advancedQueue ∨ i ∈ S1.intermediateQueue) ∧
        idxs.length + (S1.courtAssignments c).length ≤ 4 := by
  unfold fillStep
  dsimp only
  rcases ht : getCourtType types c with _ | _ | _
  · rw [if_neg (by decide)]
    split
    · exact Or.inl rfl
    · rename_i hspots
      split
      · refine Or.inr ⟨_, rfl, rfl, ?_, ?_⟩
        · intro i hi
          exact Or.inl (List.mem_filter.mp (List.mem_of_mem_take hi)).1
        · dsimp only
          have h1 := List.length_take_le (4 - (S1.courtAssignments c).length)
            (filterQual acc.1 .advanced S1.advancedQueue)
          omega
      · exact Or.inl rfl
  · rw [if_neg (by decide)]
    split
    · exact Or.inl rfl
    · rename_i hspots
      split
      · refine Or.inr ⟨_, rfl, rfl, ?_, ?_⟩
        · intro i hi
          exact Or.inr (List.mem_filter.mp (List.mem_of_mem_take hi)).1
        · dsimp only
          have h1 := List.length_take_le (4 - (S1.courtAssignments c).length)
            (filterQual acc.1 .intermediate S1.intermediateQueue)
          omega
      · exact Or.inl rfl
  · rw [if_pos rfl]
    exact Or.inl rfl

theorem balanceStep_self (types : CourtTypes) (S0 : Projection) (acc : List Player × Bool)
    (g : Court) (h : (balanceStep types S0 acc g).2 = false) :
    balanceStep types S0 acc g = acc := by
  rcases balanceStep_cases types S0 acc g with heq | ⟨idxs, h1, hf, -, -⟩
  · exact heq
  · rw [hf] at h
    rcases Bool.or_eq_false_iff.mp h with ⟨hb, hv⟩
    refine Prod.ext_iff.mpr ⟨?_, ?_⟩
    · rw [h1, setCourtAll_of_not_anyValid hv]
    · rw [hf, hv, Bool.or_false, hb]

/-- When the balance pass reports no change it also wrote nothing. -/
theorem balancePass_no_change (types : CourtTypes) (S0 : Projection) :
    ∀ (R : List Court) (acc : List Player × Bool),
      (R.foldl (balanceStep types S0) acc).2 = false →
      R.foldl (balanceStep types S0) acc = acc
  | [], acc, _ => rfl
  | g :: R, acc, h => by
    rw [List.foldl_cons] at h ⊢
    have h2 := balancePass_no_change types S0 R (balanceStep types S0 acc g) h
    rw [h2] at h ⊢
    exact balanceStep_self types S0 acc g h

/-- Induction along the balance pass: given the capacity invariant and
agreement with the base snapshot on the not-yet-visited G courts, the
pass keeps every court at or below four players. -/
theorem balance_fold (types : CourtTypes) (P0 : List Player) (hP0 : CapacityInv P0) :
    ∀ (R : List Court) (ps : List Player) (b : Bool),
      (∀ g ∈ R, g.isG = true) → R.Nodup →
      ps.length = P0.length → CapacityInv ps →
      (∀ g ∈ R, StatusIff ps P0 (.onCourt g)) →
      CapacityInv (R.foldl (balanceStep types (initializePlayerArrays P0)) (ps, b)).1
  | [], ps, b, _, _, _, hInv, _ => hInv
  | g :: R, ps, b, hG, hnd, hl, hInv, hIff => by
    rw [List.foldl_cons]
    have hgG : g.isG = true := hG g (List.mem_cons_self g R)
    have hcnt_g : countSt ps (.onCourt g) =
        ((initializePlayerArrays P0).courtAssignments g).length :=
      countSt_eq_of_statusIff hl (hIff g (List.mem_cons_self g R))
    rcases balanceStep_cases types (initializePlayerArrays P0) (ps, b) g with
      heq | ⟨idxs, h1, -, hsub, hbound⟩
    · rw [heq]
      exact balance_fold types P0 hP0 R ps b
        (fun g2 hg2 => hG g2 (List.mem_cons_of_mem _ hg2)) hnd.of_cons hl hInv
        (fun g2 hg2 => hIff g2 (List.mem_cons_of_mem _ hg2))
    · have hidxs_P0 : ∀ i ∈ idxs, statusAt P0 i = some .queueAdvanced ∨
          statusAt P0 i = some .queueIntermediate ∨
          statusAt P0 i = some (.onCourt (courtPairs g)) := by
        intro i hi
        rcases hsub i hi with hq | hq | hq
        · exact Or.inl (mem_advancedQueue hq)
        · exact Or.inr (Or.inl (mem_intermediateQueue hq))
        · exact Or.inr (Or.inr (mem_members.mp hq))
      have hInv2 : CapacityInv (setCourtAll idxs g ps) := by
        intro c
        by_cases hc : c = g
        · subst hc
          refine le_trans (countSt_setCourtAll_target idxs c ps) ?_
          rcases hbound with ⟨hle, hzero⟩ | hle
          · have hw : ((initializePlayerArrays P0).courtAssignments (courtPairs c)).length =
                countSt P0 (.onCourt (courtPairs c)) := rfl
            have := hP0 (courtPairs c)
            omega
          · omega
        · exact le_trans
            (countSt_setCourtAll_other idxs g ps _ (by simp [Status.onCourt.injEq, hc]))
            (hInv c)
      have hIff2 : ∀ g2 ∈ R, StatusIff (setCourtAll idxs g ps) P0 (.onCourt g2) := by
        intro g2 hg2
        have hg2G : g2.isG = true := hG g2 (List.mem_cons_of_mem _ hg2)
        have hne : g2 ≠ g := fun he => (List.nodup_cons.mp hnd).1 (he ▸ hg2)
        refine statusIff_setCourtAll (by simp [Status.onCourt.injEq, hne]) ?_
          (hIff g2 (List.mem_cons_of_mem _ hg2))
        intro i hi heq2
        rcases hidxs_P0 i hi with hq | hq | hq <;> rw [heq2] at hq
        · exact Status.noConfusion (Option.some.inj hq)
        · exact Status.noConfusion (Option.some.inj hq)
        · have hthis : g2 = courtPairs g := Status.onCourt.inj (Option.some.inj hq)
          rw [hthis, courtPairs_not_G g hgG] at hg2G
          exact Bool.noConfusion hg2G
      have hrec := balance_fold types P0 hP0 R (setCourtAll idxs g ps)
        (balanceStep types (initializePlayerArrays P0) (ps, b) g).2
        (fun g2 hg2 => hG g2 (List.mem_cons_of_mem _ hg2)) hnd.of_cons
        (by rw [setCourtAll_length]; exact hl) hInv2 hIff2
      rw [← h1] at hrec
      exact hrec

/-- Induction along the fill pass: the snapshot taken after the balance
pass is exact for the array the fill pass starts from, so each court
receives at most its snapshot-free capacity and stays at or below four. -/
theorem fill_fold (types : CourtTypes) (P1 : List Player) :
    ∀ (R : List Court) (ps : List Player) (b : Bool),
      R.Nodup → ps.length = P1.length → CapacityInv ps →
      (∀ c ∈ R, StatusIff ps P1 (.onCourt c)) →
      CapacityInv (R.foldl (fillStep types (initializePlayerArrays P1)) (ps, b)).1
  | [], ps, b, _, _, hInv, _ => hInv
  | c :: R, ps, b, hnd, hl, hInv, hIff => by
    rw [List.foldl_cons]
    have hcnt_c : countSt ps (.onCourt c) =
        ((initializePlayerArrays P1).courtAssignments c).length :=
      countSt_eq_of_statusIff hl (hIff c (List.mem_cons_self c R))
    rcases fillStep_cases types (initializePlayerArrays P1) (ps, b) c with
      heq | ⟨idxs, h1, -, hsub, hbound⟩
    · rw [heq]
      exact fill_fold types P1 R ps b hnd.of_cons hl hInv
        (fun c2 hc2 => hIff c2 (List.mem_cons_of_mem _ hc2))
    · have hidxs_P1 : ∀ i ∈ idxs, statusAt P1 i = some .queueAdvanced ∨
          statusAt P1 i = some .queueIntermediate := by
        intro i hi
        rcases hsub i hi with hq | hq
        · exact Or.inl (mem_advancedQueue hq)
        · exact Or.inr (mem_intermediateQueue hq)
      have hInv2 : CapacityInv (setCourtAll idxs c ps) := by
        intro c2
        by_cases hc : c2 = c
        · subst hc
          refine le_trans (countSt_setCourtAll_target idxs c2 ps) ?_
          omega
        · exact le_trans
            (countSt_setCourtAll_other idxs c ps _ (by simp [Status.onCourt.injEq, hc]))
            (hInv c2)
      have hIff2 : ∀ c2 ∈ R, StatusIff (setCourtAll idxs c ps) P1 (.onCourt c2) := by
        intro c2 hc2
        have hne : c2 ≠ c := fun he => (List.nodup_cons.mp hnd).1 (he ▸ hc2)
        refine statusIff_setCourtAll (by simp [Status.onCourt.injEq, hne]) ?_
          (hIff c2 (List.mem_cons_of_mem _ hc2))
        intro i hi heq2
        rcases hidxs_P1 i hi with hq | hq <;> rw [heq2] at hq <;>
          exact Status.noConfusion (Option.some.inj hq)
      have hrec := fill_fold types P1 R (setCourtAll idxs c ps)
        (fillStep types (initializePlayerArrays P1) (ps, b) c).2 hnd.of_cons
        (by rw [setCourtAll_length]; exact hl) hInv2 hIff2
      rw [← h1] at hrec
      exact hrec

/-- autoFillEmptyCourts preserves the capacity invariant. -/
theorem capacityInv_autoFillEmptyCourts {s : EngineState} (h : CapacityInv s.players) :
    CapacityInv (autoFillEmptyCourts s).players := by
  unfold autoFillEmptyCourts
  dsimp only
  set types := syncWCourtTypes s.courtTypes with htypes
  have hbal : CapacityInv (balancePass types (initializePlayerArrays s.players) s.players).1 := by
    unfold balancePass
    exact balance_fold types s.players h gCourtsList s.players false (by decide) (by decide)
      rfl h (fun g _ i => Iff.rfl)
  have hlen : (balancePass types (initializePlayerArrays s.players) s.players).1.length =
      s.players.length := by
    unfold balancePass
    generalize hacc : ((s.players, false) : List Player × Bool) = acc
    have hacc1 : acc.1.length = s.players.length := by rw [← hacc]
    clear hacc
    induction gCourtsList generalizing acc with
    | nil => exact hacc1
    | cons g R ih =>
      rw [List.foldl_cons]
      apply ih
      rcases balanceStep_cases types (initializePlayerArrays s.players) acc g with
        heq | ⟨idxs, h1, -, -, -⟩
      · rw [heq]; exact hacc1
      · rw [h1, setCourtAll_length]; exact hacc1
  by_cases hflag : (balancePass types (initializePlayerArrays s.players) s.players).2
  · rw [if_pos hflag]
    unfold fillPass
    exact fill_fold types
      (balancePass types (initializePlayerArrays s.players) s.players).1 allCourtsList
      _ _ (by decide) rfl hbal (fun c _ i => Iff.rfl)
  · rw [if_neg hflag]
    have hunch := balancePass_no_change types (initializePlayerArrays s.players) gCourtsList
      (s.players, false) (Bool.not_eq_true _ ▸ (by simpa using hflag))
    have hps : (balancePass types (initializePlayerArrays s.players) s.players).1 = s.players := by
      unfold balancePass
      rw [hunch]
    unfold fillPass
    rw [hps]
    exact fill_fold types s.players allCourtsList s.players _ (by decide) rfl h
      (fun c _ i => Iff.rfl)

theorem getCourtType_setCourtTypeEntry (types : CourtTypes) (c : Court) (t : CourtType)
    (c2 : Court) :
    getCourtType (setCourtTypeEntry types c t) c2 = if c2 = c then t else getCourtType types c2 := by
  unfold getCourtType setCourtTypeEntry
  by_cases h : c2 = c <;> simp [h]

/-- After syncWCourtTypes every W court carries the type of its G pair. -/
theorem getCourtType_syncW_pair (types : CourtTypes) :
    ∀ g : Court, g.isG = true →
      getCourtType (syncWCourtTypes types) (courtPairs g) =
        getCourtType (syncWCourtTypes types) g := by
  intro g hg
  cases g <;> simp_all [syncWCourtTypes, gCourtsList, Court.isG, List.foldl,
    getCourtType_setCourtTypeEntry, courtPairs]

theorem get?_setCourtAll (idxs : List Nat) (c : Court) (ps : List Player) (i : Nat) :
    (setCourtAll idxs c ps).get? i = (ps.get? i).map
      (fun p => if i ∈ idxs then { p with status := .onCourt c, modified := true } else p) := by
  unfold setCourtAll
  rw [applyIdx_get?]
  simp only [Nat.zero_add]

theorem get?_sendBackToQueueAll (idxs : List Nat) (now : Nat) (ps : List Player) (i : Nat) :
    (sendBackToQueueAll idxs now ps).get? i = (ps.get? i).map
      (fun p =>
        if i ∈ idxs then
          { p with status := queueTagOf p.qualification, order := now, modified := true }
        else p) := by
  unfold sendBackToQueueAll
  rw [applyIdx_get?]
  simp only [Nat.zero_add]

theorem courtPairs_ne_self (g : Court) (hg : g.isG = true) : courtPairs g ≠ g := by
  revert hg
  cases g <;> decide

/-- C10: autoAdvanceFromQueue never changes the engine state.  Every
guard branch returns early, and in the branch that found a queued
candidate the evaluation of player.qualification at the update call
reads the loop-scoped const player out of scope, raising a
ReferenceError that the try/catch absorbs with no mutation. -/
theorem claim_c10_autoAdvanceFromQueue_noop (s : EngineState) (courtName : Court)
    (queueType : Qual) (now : Nat) : autoAdvanceFromQueue s courtName queueType now = s := by
  unfold autoAdvanceFromQueue
  dsimp only
  split
  · rfl
  · split
    · rfl
    · split
      · rfl
      · split
        · rfl
        · rfl

theorem handleCourtTypeChange_courtTypes (s : EngineState) (cn : Court)
    (old new : CourtType) (now : Nat) :
    (handleCourtTypeChange s cn old new now).courtTypes = s.courtTypes := by
  unfold handleCourtTypeChange
  split <;> rfl

/-- C5: switching a G court to training returns every player on the
court and on its paired W court to the queue matching the qualification
of the player, with order reset to now, and afterwards the paired W
court is typed training. -/
theorem claim_c5_training_switch (s : EngineState) (g : Court) (hg : g.isG = true)
    (now : Nat) :
    (∀ i p, s.players.get? i = some p →
      (p.status = .onCourt g ∨ p.status = .onCourt (courtPairs g)) →
      (changeCourtType s g .training now).players.get? i =
        some { p with status := queueTagOf p.qualification, order := now, modified := true }) ∧
    getCourtType (changeCourtType s g .training now).courtTypes (courtPairs g) = .training := by
  constructor
  · intro i p hp hon
    unfold changeCourtType
    rw [if_neg (by simp [hg])]
    dsimp only
    unfold handleCourtTypeChange
    rw [if_pos rfl]
    dsimp only
    rw [if_pos hg]
    rw [get?_sendBackToQueueAll, hp]
    have hmem : i ∈ List.foldl
        (fun acc c => acc ++ (initializePlayerArrays s.players).courtAssignments c) []
        [g, courtPairs g] := by
      simp only [List.foldl_cons, List.foldl_nil, List.nil_append, List.mem_append,
        courtAssignments_eq]
      rcases hon with hon | hon
      · exact Or.inl (mem_members.mpr (by unfold statusAt; rw [hp]; simp [hon]))
      · exact Or.inr (mem_members.mpr (by unfold statusAt; rw [hp]; simp [hon]))
    simp only [Option.map_some']
    rw [if_pos hmem]
  · unfold changeCourtType
    rw [if_neg (by simp [hg])]
    dsimp only
    rw [handleCourtTypeChange_courtTypes]
    revert hg
    cases g <;> intro hg <;> simp_all [syncWCourtTypes, gCourtsList, List.foldl,
      getCourtType_setCourtTypeEntry, courtPairs, Court.isG]

/-- C6: rotating a G court sends every player on it to the queue
matching the qualification of the player with order reset to now, and
moves every player on the paired W court onto the G court with status
set and order untouched. -/
theorem claim_c6_rotate (s : EngineState) (g : Court) (hg : g.isG = true) (now : Nat) :
    (∀ i p, s.players.get? i = some p → p.status = .onCourt g →
      (rotateCourtPlayers s g now).players.get? i =
        some { p with status := queueTagOf p.qualification, order := now, modified := true }) ∧
    (∀ i p, s.players.get? i = some p → p.status = .onCourt (courtPairs g) →
      (rotateCourtPlayers s g now).players.get? i =
        some { p with status := .onCourt g, modified := true }) := by
  have hstatus : ∀ i p, s.players.get? i = some p → statusAt s.players i = some p.status := by
    intro i p hp
    unfold statusAt
    rw [hp]
    rfl
  constructor
  · intro i p hp hon
    unfold rotateCourtPlayers
    rw [if_neg (by simp [hg])]
    dsimp only
    rw [get?_setCourtAll, get?_sendBackToQueueAll, hp]
    simp only [Option.map_some']
    have hgmem : i ∈ (initializePlayerArrays s.players).courtAssignments g := by
      rw [courtAssignments_eq, mem_members, hstatus i p hp, hon]
    rw [if_pos hgmem]
    have hwmem : i ∉ (initializePlayerArrays s.players).courtAssignments (courtPairs g) := by
      rw [courtAssignments_eq, mem_members, hstatus i p hp, hon]
      intro hcontra
      have := Status.onCourt.inj (Option.some.inj hcontra)
      exact courtPairs_ne_self g hg this.symm
    rw [if_neg hwmem]
  · intro i p hp hon
    unfold rotateCourtPlayers
    rw [if_neg (by simp [hg])]
    dsimp only
    rw [get?_setCourtAll, get?_sendBackToQueueAll, hp]
    simp only [Option.map_some']
    have hgmem : i ∉ (initializePlayerArrays s.players).courtAssignments g := by
      rw [courtAssignments_eq, mem_members, hstatus i p hp, hon]
      intro hcontra
      have := Status.onCourt.inj (Option.some.inj hcontra)
      exact courtPairs_ne_self g hg this
    rw [if_neg hgmem]
    have hwmem : i ∈ (initializePlayerArrays s.players).courtAssignments (courtPairs g) := by
      rw [courtAssignments_eq, mem_members, hstatus i p hp, hon]
    rw [if_pos hwmem]

/-- C7: the type of the paired W court equals the type of its G court
after any changeCourtType call (given the pairing held before, which
covers the reject and no-op branches) and unconditionally after any
syncWCourtTypes call. -/
theorem claim_c7_pair_types (s : EngineState)
    (h : ∀ g : Court, g.isG = true →
      getCourtType s.courtTypes (courtPairs g) = getCourtType s.courtTypes g) :
    (∀ (c : Court) (t : CourtType) (now : Nat) (g : Court), g.isG = true →
      getCourtType (changeCourtType s c t now).courtTypes (courtPairs g) =
        getCourtType (changeCourtType s c t now).courtTypes g) ∧
    (∀ g : Court, g.isG = true →
      getCourtType (syncWCourtTypes s.courtTypes) (courtPairs g) =
        getCourtType (syncWCourtTypes s.courtTypes) g) := by
  constructor
  · intro c t now g hgg
    unfold changeCourtType
    split
    · exact h g hgg
    · dsimp only
      exact getCourtType_syncW_pair _ g hgg
  · intro g hgg
    exact getCourtType_syncW_pair s.courtTypes g hgg

theorem mem_queueCandidates_isActive {ps : List Player} {st : Status} {i : Nat} {p : Player}
    (h : i ∈ queueCandidates ps st) (hp : ps.get? i = some p) : p.isActive = true := by
  unfold queueCandidates at h
  rw [List.mem_filter] at h
  obtain ⟨-, h⟩ := h
  rw [hp] at h
  simp only [Option.any, Bool.and_eq_true, decide_eq_true_eq] at h
  exact h.1

/-- C8 (amended): an inactive player appears in neither derived queue,
but a player with a court status appears in the courtAssignments list
of that court whether active or not — the source filters isActive for
the queues only, not for courtAssignments. -/
theorem claim_c8_inactive_excluded_from_queues (ps : List Player) (i : Nat) (p : Player)
    (hp : ps.get? i = some p) (hinactive : p.isActive = false) :
    i ∉ (initializePlayerArrays ps).advancedQueue ∧
    i ∉ (initializePlayerArrays ps).intermediateQueue ∧
    (∀ c : Court, p.status = .onCourt c →
      i ∈ (initializePlayerArrays ps).courtAssignments c) := by
  refine ⟨?_, ?_, ?_⟩
  · intro hmem
    have := mem_queueCandidates_isActive
      (mem_sortByKey.mp (by simpa [initializePlayerArrays] using hmem)) hp
    rw [hinactive] at this
    exact Bool.noConfusion this
  · intro hmem
    have := mem_queueCandidates_isActive
      (mem_sortByKey.mp (by simpa [initializePlayerArrays] using hmem)) hp
    rw [hinactive] at this
    exact Bool.noConfusion this
  · intro c hc
    rw [courtAssignments_eq, mem_members]
    unfold statusAt
    rw [hp]
    simp [hc]

/-- The single-player array of the C8 counterexample: inactive yet
holding a court status. -/
def inactiveOnCourtPlayers : List Player :=
  [{ qualification := .advanced, status := .onCourt .G1, order := 1,
     isActive := false, modified := false }]

/-- C8 counterexample: the claim says an inactive player appears in no
courtAssignments list after recomputation, but the source includes it:
index 0 is inactive with status G1 and is listed on G1. -/
theorem claim_c8_counterexample :
    ((inactiveOnCourtPlayers.get? 0).map (·.isActive)) = some false ∧
    0 ∈ (initializePlayerArrays inactiveOnCourtPlayers).courtAssignments .G1 := by
  constructor
  · rfl
  · decide

/-- C8 witness for the amended claim at the concrete counterexample
array: the inactive player is out of the advanced queue yet on G1. -/
theorem claim_c8_inactive_excluded_witness :
    0 ∉ (initializePlayerArrays inactiveOnCourtPlayers).advancedQueue ∧
    0 ∈ (initializePlayerArrays inactiveOnCourtPlayers).courtAssignments .G1 :=
  ⟨(claim_c8_inactive_excluded_from_queues inactiveOnCourtPlayers 0 _ rfl rfl).1,
   (claim_c8_inactive_excluded_from_queues inactiveOnCourtPlayers 0 _ rfl rfl).2.2 .G1 rfl⟩

/-- C3: every engine operation preserves the four-player court capacity
invariant, provided it held before the operation. -/
theorem claim_c3_capacity_preserved (s : EngineState) (h : CapacityInv s.players) :
    (∀ (i : Nat) (c : Court) (now : Nat), CapacityInv (moveToCourt s i c now).players) ∧
    (∀ (i : Nat) (q : Qual) (now : Nat), CapacityInv (moveToSpecificQueue s i q now).players) ∧
    (∀ (q : Qual) (arr : List Nat) (now : Nat),
      CapacityInv (reorderPlayersInQueue s q arr now).players) ∧
    (∀ (g : Court) (now : Nat), CapacityInv (rotateCourtPlayers s g now).players) ∧
    (∀ (c : Court) (t : CourtType) (now : Nat),
      CapacityInv (changeCourtType s c t now).players) ∧
    CapacityInv (autoFillEmptyCourts s).players :=
  ⟨fun i c now => capacityInv_moveToCourt h i c now,
   fun i q now => capacityInv_moveToSpecificQueue h i q now,
   fun q arr now => capacityInv_reorderPlayersInQueue h q arr now,
   fun g now => capacityInv_rotateCourtPlayers h g now,
   fun c t now => capacityInv_changeCourtType h c t now,
   capacityInv_autoFillEmptyCourts h⟩

/-- The failing state of C1: three advanced players on G1, two more in
the advanced queue, G1 advanced, the other pairs training. -/
def autofillTwiceState : EngineState where
  players :=
    [{ qualification := .advanced, status := .onCourt .G1, order := 1 },
     { qualification := .advanced, status := .onCourt .G1, order := 2 },
     { qualification := .advanced, status := .onCourt .G1, order := 3 },
     { qualification := .advanced, status := .queueAdvanced, order := 10 },
     { qualification := .advanced, status := .queueAdvanced, order := 20 }]
  courtTypes := fun c =>
    match c with
    | .G1 => some .advanced
    | _ => some .training

/-- C1 (code bug): autoFillEmptyCourts is not idempotent.  On the
failing state the first call fills the single free G1 seat with queued
player 3 but then, reading the stale advanced-queue snapshot, reassigns
players 3 and 4 to W1; the second call finds G1 short-handed with W1
occupied and moves player 3 back to G1 — a second round of
player-status changes. -/
theorem claim_c1_autofill_not_idempotent :
    statusAt (autoFillEmptyCourts autofillTwiceState).players 3 = some (.onCourt .W1) ∧
    statusAt (autoFillEmptyCourts (autoFillEmptyCourts autofillTwiceState)).players 3 =
      some (.onCourt .G1) ∧
    (autoFillEmptyCourts (autoFillEmptyCourts autofillTwiceState)).players ≠
      (autoFillEmptyCourts autofillTwiceState).players := by
  refine ⟨by decide, by decide, by decide⟩

/-- The scenario state of C2: advanced queue exactly players 0,1,2 in
order, G1 advanced and empty, every other pair training. -/
def threeQueuedState : EngineState where
  players :=
    [{ qualification := .advanced, status := .queueAdvanced, order := 1 },
     { qualification := .advanced, status := .queueAdvanced, order := 2 },
     { qualification := .advanced, status := .queueAdvanced, order := 3 }]
  courtTypes := fun c =>
    match c with
    | .G1 => some .advanced
    | _ => some .training

/-- C2: with advanced queue [0,1,2], G1 advanced and empty and no other
court competing, one autoFillEmptyCourts call puts exactly those three
players on G1 and empties the advanced queue. -/
theorem claim_c2_autofill_three_onto_g1 :
    (initializePlayerArrays threeQueuedState.players).advancedQueue = [0, 1, 2] ∧
    getCourtType threeQueuedState.courtTypes .G1 = .advanced ∧
    (initializePlayerArrays threeQueuedState.players).courtAssignments .G1 = [] ∧
    (initializePlayerArrays (autoFillEmptyCourts threeQueuedState).players).courtAssignments
      .G1 = [0, 1, 2] ∧
    (initializePlayerArrays (autoFillEmptyCourts threeQueuedState).players).advancedQueue =
      [] ∧
    statusAt (autoFillEmptyCourts threeQueuedState).players 0 = some (.onCourt .G1) ∧
    statusAt (autoFillEmptyCourts threeQueuedState).players 1 = some (.onCourt .G1) ∧
    statusAt (autoFillEmptyCourts threeQueuedState).players 2 = some (.onCourt .G1) := by
  refine ⟨by decide, rfl, by decide, by decide, by decide, by decide, by decide, by decide⟩

/-- The failing state of C4: one queued advanced player, every court in
training mode and empty. -/
def trainingCourtState : EngineState where
  players := [{ qualification := .advanced, status := .queueAdvanced, order := 1 }]
  courtTypes := fun _ => some .training

/-- C4 (code bug): moveToCourt has no training-court check — a training
court passes both qualification guards for every player, so the player
is placed on the training court instead of being rejected. -/
theorem claim_c4_training_court_not_rejected :
    getCourtType trainingCourtState.courtTypes .G1 = .training ∧
    statusAt (moveToCourt trainingCourtState 0 .G1 99).players 0 = some (.onCourt .G1) := by
  refine ⟨rfl, by decide⟩

theorem insertByKey_perm (key : Nat → Nat) (x : Nat) :
    ∀ l : List Nat, (insertByKey key x l).Perm (x :: l)
  | [] => List.Perm.refl _
  | y :: ys => by
    unfold insertByKey
    by_cases h : key y ≤ key x
    · rw [if_pos h]
      exact ((insertByKey_perm key x ys).cons y).trans (List.Perm.swap x y ys)
    · rw [if_neg h]

theorem sortFold_perm (key : Nat → Nat) :
    ∀ (l acc : List Nat), (l.foldl (fun a x => insertByKey key x a) acc).Perm (acc ++ l)
  | [], acc => by simp
  | x :: xs, acc => by
    rw [List.foldl_cons]
    refine (sortFold_perm key xs _).trans ?_
    refine ((insertByKey_perm key x acc).append_right xs).trans ?_
    exact List.perm_middle.symm

theorem sortByKey_perm (key : Nat → Nat) (l : List Nat) : (sortByKey key l).Perm l := by
  unfold sortByKey
  simpa using sortFold_perm key l []

theorem pairwise_insertByKey (key : Nat → Nat) (x : Nat) :
    ∀ {l : List Nat}, l.Pairwise (fun a b => key a ≤ key b) →
      (insertByKey key x l).Pairwise (fun a b => key a ≤ key b)
  | [], _ => by simp [insertByKey]
  | y :: ys, h => by
    unfold insertByKey
    rcases List.pairwise_cons.mp h with ⟨hy, hys⟩
    by_cases hc : key y ≤ key x
    · rw [if_pos hc]
      refine List.pairwise_cons.mpr ⟨?_, pairwise_insertByKey key x hys⟩
      intro b hb
      rcases mem_insertByKey.mp hb with rfl | hb2
      · exact hc
      · exact hy b hb2
    · rw [if_neg hc]
      refine List.pairwise_cons.mpr ⟨?_, h⟩
      intro b hb
      rcases List.mem_cons.mp hb with rfl | hb2
      · omega
      · have := hy b hb2
        omega

theorem sortFold_sorted (key : Nat → Nat) :
    ∀ (l acc : List Nat), acc.Pairwise (fun a b => key a ≤ key b) →
      (l.foldl (fun a x => insertByKey key x a) acc).Pairwise (fun a b => key a ≤ key b)
  | [], _, h => h
  | x :: xs, acc, h => by
    rw [List.foldl_cons]
    exact sortFold_sorted key xs _ (pairwise_insertByKey key x h)

theorem sortByKey_sorted (key : Nat → Nat) (l : List Nat) :
    (sortByKey key l).Pairwise (fun a b => key a ≤ key b) :=
  sortFold_sorted key l [] List.Pairwise.nil

theorem pairwise_lt_of_le_nodup {key : Nat → Nat} :
    ∀ {l : List Nat}, l.Pairwise (fun a b => key a ≤ key b) → l.Nodup →
      (∀ a ∈ l, ∀ b ∈ l, a ≠ b → key a ≠ key b) →
      l.Pairwise (fun a b => key a < key b)
  | [], _, _, _ => List.Pairwise.nil
  | x :: xs, hs, hn, hinj => by
    rcases List.pairwise_cons.mp hs with ⟨hx, hxs⟩
    rcases List.nodup_cons.mp hn with ⟨hnx, hnxs⟩
    refine List.pairwise_cons.mpr ⟨?_, pairwise_lt_of_le_nodup hxs hnxs
      (fun a ha b hb => hinj a (List.mem_cons_of_mem _ ha) b (List.mem_cons_of_mem _ hb))⟩
    intro b hb
    have h1 := hx b hb
    have hne : x ≠ b := fun he => hnx (he ▸ hb)
    have h2 := hinj x (List.mem_cons_self x xs) b (List.mem_cons_of_mem _ hb) hne
    omega

theorem eq_of_perm_of_pairwise_lt {key : Nat → Nat} {l₁ l₂ : List Nat}
    (hp : l₁.Perm l₂) (h₁ : l₁.Pairwise (fun a b => key a < key b))
    (h₂ : l₂.Pairwise (fun a b => key a < key b)) : l₁ = l₂ := by
  haveI : IsAntisymm Nat (fun a b => key a < key b) :=
    ⟨fun a b hab hba => absurd (Nat.lt_trans hab hba) (Nat.lt_irrefl _)⟩
  exact List.eq_of_perm_of_sorted hp h₁ h₂

theorem get?_writeOrders_not_mem :
    ∀ (arr : List Nat) (ps : List Player) (base k i : Nat), i ∉ arr →
      (writeOrders ps arr base k).get? i = ps.get? i
  | [], _, _, _, _, _ => rfl
  | a :: rest, ps, base, k, i, h => by
    unfold writeOrders
    rw [get?_writeOrders_not_mem rest _ base (k + 1) i
      (fun hm => h (List.mem_cons_of_mem _ hm))]
    cases hg : ps.get? a with
    | none => rfl
    | some p =>
      exact List.get?_set_ne _ _ (fun he => h (he ▸ List.mem_cons_self a rest))

theorem get?_writeOrders_mem :
    ∀ (arr : List Nat) (ps : List Player) (base k k0 : Nat) (hk0 : k0 < arr.length),
      arr.Nodup →
      (writeOrders ps arr base k).get? (arr.get ⟨k0, hk0⟩) =
        (ps.get? (arr.get ⟨k0, hk0⟩)).map
          (fun p => { p with order := base + (k + k0), modified := true })
  | a :: rest, ps, base, k, 0, hk0, hnd => by
    unfold writeOrders
    dsimp only
    have hanr : a ∉ rest := (List.nodup_cons.mp hnd).1
    have hg0 : (a :: rest).get ⟨0, hk0⟩ = a := rfl
    rw [hg0]
    rw [get?_writeOrders_not_mem rest _ base (k + 1) a hanr]
    cases hg : ps.get? a with
    | none =>
      rw [hg]
      rfl
    | some p =>
      have hlt : a < ps.length := (List.get?_eq_some.mp hg).1
      rw [List.get?_set_eq_of_lt _ hlt]
      rfl
  | a :: rest, ps, base, k, k0 + 1, hk0, hnd => by
    unfold writeOrders
    dsimp only
    have hanr : a ∉ rest := (List.nodup_cons.mp hnd).1
    have hk0r : k0 < rest.length := by simpa using hk0
    have hne : a ≠ rest.get ⟨k0, hk0r⟩ := fun he => hanr (he ▸ List.get_mem rest k0 hk0r)
    have harith : k + 1 + k0 = k + (k0 + 1) := by omega
    have hgs : (a :: rest).get ⟨k0 + 1, hk0⟩ = rest.get ⟨k0, hk0r⟩ := rfl
    rw [hgs]
    cases hg : ps.get? a with
    | none =>
      have IH := get?_writeOrders_mem rest ps base (k + 1) k0 hk0r (List.nodup_cons.mp hnd).2
      rw [harith] at IH
      exact IH
    | some p =>
      have IH := get?_writeOrders_mem rest
        (ps.set a { p with order := base + k, modified := true })
        base (k + 1) k0 hk0r (List.nodup_cons.mp hnd).2
      rw [harith] at IH
      rw [IH, List.get?_set_ne _ _ hne]

theorem mem_queueCandidates_lt {ps : List Player} {st : Status} {i : Nat}
    (h : i ∈ queueCandidates ps st) : i < ps.length := by
  unfold queueCandidates at h
  rw [List.mem_filter, List.mem_range] at h
  exact h.1

theorem queueCandidates_writeOrders (arr : List Nat) (ps : List Player) (base k : Nat)
    (st : Status) (hnd : arr.Nodup) :
    queueCandidates (writeOrders ps arr base k) st = queueCandidates ps st := by
  unfold queueCandidates
  rw [writeOrders_length]
  apply List.filter_congr
  intro i _
  by_cases hm : i ∈ arr
  · obtain ⟨⟨k0, hk0⟩, rfl⟩ := List.mem_iff_get.mp hm
    rw [get?_writeOrders_mem arr ps base k k0 hk0 hnd]
    cases ps.get? (arr.get ⟨k0, hk0⟩) <;> rfl
  · rw [get?_writeOrders_not_mem arr ps base k i hm]

theorem tierQueue_init (ps : List Player) (qt : Qual) :
    tierQueue (initializePlayerArrays ps) qt =
      sortByKey (orderKey ps) (queueCandidates ps (queueTagOf qt)) := by
  cases qt <;> rfl

/-- C9: reorderPlayersInQueue rewrites order for exactly the listed
players, giving them strictly increasing timestamps now, now+1, ...
in array order and leaving everyone else untouched; when the array is a
permutation of the whole tier queue, the recomputed queue iterates in
exactly the given array order. -/
theorem claim_c9_reorder (s : EngineState) (qt : Qual) (arr : List Nat) (now : Nat) :
    (arr.Nodup →
      (∀ (k : Nat) (hk : k < arr.length),
        (reorderPlayersInQueue s qt arr now).players.get? (arr.get ⟨k, hk⟩) =
          (s.players.get? (arr.get ⟨k, hk⟩)).map
            (fun p => { p with order := now + k, modified := true })) ∧
      (∀ i, i ∉ arr →
        (reorderPlayersInQueue s qt arr now).players.get? i = s.players.get? i)) ∧
    (arr.Perm (tierQueue (initializePlayerArrays s.players) qt) →
      tierQueue (initializePlayerArrays (reorderPlayersInQueue s qt arr now).players) qt =
        arr) := by
  constructor
  · intro hnd
    constructor
    · intro k hk
      unfold reorderPlayersInQueue
      dsimp only
      have h := get?_writeOrders_mem arr s.players now 0 k hk hnd
      simpa using h
    · intro i hi
      unfold reorderPlayersInQueue
      dsimp only
      exact get?_writeOrders_not_mem arr s.players now 0 i hi
  · intro hperm
    rw [tierQueue_init] at hperm
    unfold reorderPlayersInQueue
    dsimp only
    rw [tierQueue_init]
    have hM_nodup : (queueCandidates s.players (queueTagOf qt)).Nodup :=
      (List.nodup_range _).filter _
    have harr_M : arr.Perm (queueCandidates s.players (queueTagOf qt)) :=
      hperm.trans (sortByKey_perm _ _)
    have hnd : arr.Nodup := harr_M.nodup_iff.mpr hM_nodup
    have hMQ : queueCandidates (writeOrders s.players arr now 0) (queueTagOf qt) =
        queueCandidates s.players (queueTagOf qt) :=
      queueCandidates_writeOrders arr s.players now 0 (queueTagOf qt) hnd
    have hvalid_mem : ∀ a ∈ arr, a < s.players.length := fun a ha =>
      mem_queueCandidates_lt (harr_M.subset ha)
    have hkey : ∀ (k : Nat) (hk : k < arr.length),
        orderKey (writeOrders s.players arr now 0) (arr.get ⟨k, hk⟩) = now + k := by
      intro k hk
      have hv := hvalid_mem _ (List.get_mem arr k hk)
      unfold orderKey
      rw [get?_writeOrders_mem arr s.players now 0 k hk hnd, List.get?_eq_get hv]
      simp
    have hperm2 : (sortByKey (orderKey (writeOrders s.players arr now 0))
        (queueCandidates (writeOrders s.players arr now 0) (queueTagOf qt))).Perm arr := by
      rw [hMQ]
      exact (sortByKey_perm _ _).trans harr_M.symm
    have hinj : ∀ a ∈ sortByKey (orderKey (writeOrders s.players arr now 0))
          (queueCandidates (writeOrders s.players arr now 0) (queueTagOf qt)),
        ∀ b ∈ sortByKey (orderKey (writeOrders s.players arr now 0))
          (queueCandidates (writeOrders s.players arr now 0) (queueTagOf qt)),
        a ≠ b →
          orderKey (writeOrders s.players arr now 0) a ≠
            orderKey (writeOrders s.players arr now 0) b := by
      intro a ha b hb hab
      obtain ⟨⟨k1, hk1⟩, rfl⟩ := List.mem_iff_get.mp (hperm2.subset ha)
      obtain ⟨⟨k2, hk2⟩, rfl⟩ := List.mem_iff_get.mp (hperm2.subset hb)
      rw [hkey k1 hk1, hkey k2 hk2]
      intro he
      apply hab
      have hk12 : k1 = k2 := by omega
      subst hk12
      rfl
    have hlt_sort := pairwise_lt_of_le_nodup (sortByKey_sorted _ _)
      (hperm2.nodup_iff.mpr hnd) hinj
    have hlt_arr : arr.Pairwise (fun a b =>
        orderKey (writeOrders s.players arr now 0) a <
          orderKey (writeOrders s.players arr now 0) b) := by
      rw [List.pairwise_iff_get]
      intro i j hij
      obtain ⟨i, hi⟩ := i
      obtain ⟨j, hj⟩ := j
      rw [hkey i hi, hkey j hj]
      simpa using hij
    exact eq_of_perm_of_pairwise_lt hperm2 hlt_sort hlt_arr

/-- C3 witness: the invariant holds of a concrete state and the theorem
keeps it through an auto-fill and a rotation. -/
theorem claim_c3_capacity_preserved_witness :
    CapacityInv autofillTwiceState.players ∧
    CapacityInv (autoFillEmptyCourts autofillTwiceState).players ∧
    CapacityInv (rotateCourtPlayers autofillTwiceState .G1 50).players :=
  ⟨by decide,
   (claim_c3_capacity_preserved autofillTwiceState (by decide)).2.2.2.2.2,
   (claim_c3_capacity_preserved autofillTwiceState (by decide)).2.2.2.1 .G1 50⟩

/-- A pair with one player on G1 and one on W1, both courts typed
advanced; used to instantiate the C5 and C6 theorems. -/
def pairOccupiedState : EngineState where
  players :=
    [{ qualification := .advanced, status := .onCourt .G1, order := 1 },
     { qualification := .intermediate, status := .onCourt .W1, order := 2 }]
  courtTypes := fun _ => some .advanced

/-- C5 witness: switching G1 to training at the concrete state sends
the G1 player to the advanced queue and the W1 player to the
intermediate queue, both with order 42, and W1 ends typed training. -/
theorem claim_c5_training_switch_witness :
    Court.isG .G1 = true ∧
    (changeCourtType pairOccupiedState .G1 .training 42).players.get? 0 =
      some { qualification := .advanced, status := .queueAdvanced, order := 42,
             isActive := true, modified := true } ∧
    (changeCourtType pairOccupiedState .G1 .training 42).players.get? 1 =
      some { qualification := .intermediate, status := .queueIntermediate, order := 42,
             isActive := true, modified := true } ∧
    getCourtType (changeCourtType pairOccupiedState .G1 .training 42).courtTypes .W1 =
      .training :=
  ⟨rfl,
   (claim_c5_training_switch pairOccupiedState .G1 rfl 42).1 0 _ rfl (Or.inl rfl),
   (claim_c5_training_switch pairOccupiedState .G1 rfl 42).1 1 _ rfl (Or.inr rfl),
   (claim_c5_training_switch pairOccupiedState .G1 rfl 42).2⟩

/-- C6 witness: rotating G1 at the concrete state sends the G1 player
to the advanced queue with order 42 and moves the W1 player onto G1
with order untouched. -/
theorem claim_c6_rotate_witness :
    (rotateCourtPlayers pairOccupiedState .G1 42).players.get? 0 =
      some { qualification := .advanced, status := .queueAdvanced, order := 42,
             isActive := true, modified := true } ∧
    (rotateCourtPlayers pairOccupiedState .G1 42).players.get? 1 =
      some { qualification := .intermediate, status := .onCourt .G1, order := 2,
             isActive := true, modified := true } :=
  ⟨(claim_c6_rotate pairOccupiedState .G1 rfl 42).1 0 _ rfl rfl,
   (claim_c6_rotate pairOccupiedState .G1 rfl 42).2 1 _ rfl rfl⟩

/-- A state with an empty courtTypes dictionary, where every court
defaults to intermediate and the pairing invariant holds vacuously. -/
def unsetTypesState : EngineState where
  players := []
  courtTypes := fun _ => none

/-- C7 witness: after setting G1 to training at the concrete state the
untouched pair G2/W2 still agrees, and one syncWCourtTypes call aligns
W1 with G1. -/
theorem claim_c7_pair_types_witness :
    getCourtType (changeCourtType unsetTypesState .G1 .training 0).courtTypes .W2 =
      getCourtType (changeCourtType unsetTypesState .G1 .training 0).courtTypes .G2 ∧
    getCourtType (syncWCourtTypes unsetTypesState.courtTypes) .W1 =
      getCourtType (syncWCourtTypes unsetTypesState.courtTypes) .G1 :=
  ⟨(claim_c7_pair_types unsetTypesState (fun _ _ => rfl)).1 .G1 .training 0 .G2 rfl,
   (claim_c7_pair_types unsetTypesState (fun _ _ => rfl)).2 .G1 rfl⟩

/-- C9 witness: reordering the advanced queue [0,1,2] of the concrete
state to [2,0,1] makes the queue iterate as exactly [2,0,1]. -/
theorem claim_c9_reorder_witness :
    List.Perm [2, 0, 1] (tierQueue (initializePlayerArrays threeQueuedState.players)
      .advanced) ∧
    tierQueue (initializePlayerArrays
        (reorderPlayersInQueue threeQueuedState .advanced [2, 0, 1] 100).players)
      .advanced = [2, 0, 1] :=
  ⟨by decide,
   (claim_c9_reorder threeQueuedState .advanced [2, 0, 1] 100).2 (by decide)⟩
